import Mathlib

/-!
Shallow embedding of the gogroup repository: the grouped-import data model,
the two validator variants, the rewriter, the processor facade and the
command-line grouper. File contents are represented by their list of lines,
which is exactly the view the code itself takes after readLines / before
writeLines (bufio.Scanner splits on line boundaries and Fprintln rejoins).
-/

namespace Gogroup

/-- One import statement with its group, from type groupedImport in group.go:
zero-based startLine and endLine (endLine is the last line of the statement,
comments attached above are included in the span), the unquoted package path,
and the integer group assigned by the Grouper. -/
structure GroupedImport where
  startLine : Nat
  endLine : Nat
  path : String
  group : Int
deriving Repr, DecidableEq

/-- The diagnostic record carried by validation findings: message text,
offending import path, and the zero-based start line of that import. -/
structure ValidationError where
  message : String
  importPath : String
  line : Nat
deriving Repr, DecidableEq

/-- Constructor helper validationError in group.go: the error for import g
with message msg, located at the startLine of g. -/
def validationError (g : GroupedImport) (msg : String) : ValidationError :=
  { message := msg, importPath := g.path, line := g.startLine }

def errstrStatementOrder : String := "Import out of order within import group"

def errstrStatementExtraLine : String := "Extra empty line inside import group"

def errstrStatementGroup : String := "Import in incorrect group"

def errstrGroupOrder : String := "Import groups out of order"

def errstrGroupExtraLine : String := "Extra empty line between import groups"

/-- emptyLines in the validate loop: g.startLine - prev.endLine - 1, the
number of fully blank lines physically between two statements, computed in
Int exactly as Go computes it in int. -/
def emptyLinesBetween (prev g : GroupedImport) : Int :=
  (g.startLine : Int) - (prev.endLine : Int) - 1

/-- The body of one iteration of the validate loop of the current variant
(group.go lines 82 to 95), comparing entry g to its predecessor prev.
Branch order follows the source exactly: for a same-group pair the blank-line
check comes first, then the path-order check. -/
def validateStep (prev g : GroupedImport) : Option ValidationError :=
  if g.group = prev.group then
    if emptyLinesBetween prev g > 0 then
      some (validationError g errstrStatementExtraLine)
    else if g.path < prev.path then
      some (validationError g errstrStatementOrder)
    else none
  else if emptyLinesBetween prev g = 0 then
    some (validationError g errstrStatementGroup)
  else if g.group < prev.group then
    some (validationError g errstrGroupOrder)
  else if emptyLinesBetween prev g > 1 then
    some (validationError g errstrGroupExtraLine)
  else none

/-- The validate loop after the first iteration has set prev: scan the rest,
returning the first violation found. -/
def validateFrom (prev : GroupedImport) : List GroupedImport → Option ValidationError
  | [] => none
  | g :: rest =>
    match validateStep prev g with
    | some e => some e
    | none => validateFrom g rest

/-- groupedImports.validate of the current variant: fewer than 2 entries is
always valid, otherwise a single forward pass over adjacent pairs in source
order returning the first violation. -/
def validate (gs : List GroupedImport) : Option ValidationError :=
  if gs.length < 2 then none
  else
    match gs with
    | [] => none
    | g :: rest => validateFrom g rest

end Gogroup

namespace GroupImports

open Gogroup (GroupedImport ValidationError validationError emptyLinesBetween
  errstrStatementOrder errstrStatementExtraLine errstrStatementGroup
  errstrGroupOrder errstrGroupExtraLine)

def errstrGroupMissingLine : String := "Missing empty line between import groups"

/-- The body of one iteration of the validate loop of the legacy variant
(package group_imports, group.go lines 331 to 345): for a same-group pair the
path-order check comes first, then the blank-line check, and there is a final
branch for a missing blank line between groups guarded by emptyLines == 0. -/
def validateStep (prev g : GroupedImport) : Option ValidationError :=
  if g.group = prev.group then
    if g.path < prev.path then
      some (validationError g errstrStatementOrder)
    else if emptyLinesBetween prev g > 0 then
      some (validationError g errstrStatementExtraLine)
    else none
  else if emptyLinesBetween prev g = 0 then
    some (validationError g errstrStatementGroup)
  else if g.group < prev.group then
    some (validationError g errstrGroupOrder)
  else if emptyLinesBetween prev g > 1 then
    some (validationError g errstrGroupExtraLine)
  else if emptyLinesBetween prev g = 0 then
    some (validationError g errstrGroupMissingLine)
  else none

/-- The legacy validate loop after the first iteration has set prev. -/
def validateFrom (prev : GroupedImport) : List GroupedImport → Option ValidationError
  | [] => none
  | g :: rest =>
    match validateStep prev g with
    | some e => some e
    | none => validateFrom g rest

/-- groupedImports.validate of the legacy variant. -/
def validate (gs : List GroupedImport) : Option ValidationError :=
  if gs.length < 2 then none
  else
    match gs with
    | [] => none
    | g :: rest => validateFrom g rest

end GroupImports

namespace Gogroup

/-- groupedImports.Less from group.go lines 40 to 48: strict comparison by
group first, then by path within equal groups. -/
def giLess (a b : GroupedImport) : Bool :=
  if a.group < b.group then true
  else if a.group = b.group ∧ a.path < b.path then true
  else false

/-- The non-strict ordering guaranteed by sort.Sort with giLess as the Less
method: a precedes b exactly when giLess b a is false. -/
def giSortRel (a b : GroupedImport) : Prop := giLess b a = false

instance : DecidableRel giSortRel := fun a b =>
  inferInstanceAs (Decidable (giLess b a = false))

/-- Model of sort.Sort(gs) in sortedImportLines: produce a permutation of gs
that is sorted with respect to the Less method, i.e. pairwise giSortRel. -/
def giSort (gs : List GroupedImport) : List GroupedImport :=
  List.insertionSort giSortRel gs

/-- The slice expression lines[g.startLine : g.endLine+1] used by
sortedImportLines: the lines of the statement g, leading comments included. -/
def importSegment (lines : List String) (g : GroupedImport) : List String :=
  (lines.drop g.startLine).take (g.endLine + 1 - g.startLine)

/-- The emission loop of sortedImportLines (group.go lines 172 to 181): walk
the sorted sequence, inserting one blank line whenever the group changes, and
copying each statement segment verbatim. -/
def silEmit (lines : List String) : Option GroupedImport → List GroupedImport → List String
  | _, [] => []
  | prev, g :: rest =>
    (match prev with
     | some p => if g.group ≠ p.group then [""] else []
     | none => []) ++ importSegment lines g ++ silEmit lines (some g) rest

/-- sortedImportLines from group.go: sorts gs in place with sort.Sort and
emits the rewritten import block. The in-place mutation of the Go slice is
modelled by explicit state passing: the first component is the state of the
caller-visible sequence after the call, the second is the emitted block. -/
def sortedImportLines (gs : List GroupedImport) (lines : List String) :
    List GroupedImport × List String :=
  (giSort gs, silEmit lines none (giSort gs))

/-- writeFixed from group.go lines 186 to 207 over the line view of the file:
reads min from gs[0] and max from gs[len(gs)-1] before sorting, then splices
the re-emitted block between lines[:min] and lines[max+1:]. The none result
models the index panic on an empty sequence; the first component of the
result is the caller-visible state of gs after the in-place sort. -/
def writeFixed (lines : List String) (gs : List GroupedImport) :
    Option (List GroupedImport × List String) :=
  if h : gs = [] then none
  else
    some ((sortedImportLines gs lines).fst,
      lines.take (gs.head h).startLine ++ (sortedImportLines gs lines).snd ++
        lines.drop ((gs.getLast h).endLine + 1))

/-- Processor.repair from group.go lines 209 to 232 over the line view, with
the import extraction (readImports, which delegates to the external parser)
supplied as the already-extracted sequence gs of the input lines. The outer
none models a panic inside writeFixed; some none is the Go nil result for an
already-valid file; some (some out) is the fixed text. -/
def repair (lines : List String) (gs : List GroupedImport) :
    Option (Option (List String)) :=
  if validate gs = none then some none
  else
    match writeFixed lines gs with
    | some r => some (some r.snd)
    | none => none

/-- Processor.reformat from group.go lines 234 to 255: run the external
formatting collaborator (parameter format, modelling imports.Process), then
repair its output (the extraction collaborator is parameter extract); return
nil when repair returned nil and the formatter made no change, and otherwise
return exactly what repair returned. -/
def reformat (format : List String → List String)
    (extract : List String → List GroupedImport) (src : List String) :
    Option (Option (List String)) :=
  match repair (format src) (extract (format src)) with
  | none => none
  | some ret => some (if ret = none ∧ src = format src then none else ret)

/-- The start line the parser assigns to import g when the rewritten block is
re-read: pos is the next free line, and a blank line is skipped whenever the
group differs from the preceding statement, exactly as silEmit emits one. -/
def relayoutStart (pos : Nat) (prevGroup : Option Int) (g : GroupedImport) : Nat :=
  match prevGroup with
  | none => pos
  | some pg => if g.group = pg then pos else pos + 1

/-- Model of re-extracting (readImports) the import sequence from the output
of writeFixed: the statements appear in sorted order, each keeping its path,
its group (the Grouper is a pure function of the path) and its line extent
(its segment is copied verbatim), laid out consecutively from pos with one
blank line exactly at each group change, mirroring silEmit. -/
def relayout : Nat → Option Int → List GroupedImport → List GroupedImport
  | _, _, [] => []
  | pos, prevGroup, g :: rest =>
    { g with startLine := relayoutStart pos prevGroup g,
             endLine := relayoutStart pos prevGroup g + (g.endLine - g.startLine) } ::
      relayout (relayoutStart pos prevGroup g + (g.endLine - g.startLine) + 1)
        (some g.group) rest

end Gogroup

namespace Gogroup

lemma giLess_true_iff (a b : GroupedImport) :
    giLess a b = true ↔ (a.group < b.group ∨ (a.group = b.group ∧ a.path < b.path)) := by
  unfold giLess
  split_ifs with h1 h2
  · simp [h1]
  · simp [h2]
  · exact iff_of_false (by simp) (by rintro (h | ⟨he, hp⟩); exacts [h1 h, h2 ⟨he, hp⟩])

lemma giSortRel_iff (a b : GroupedImport) :
    giSortRel a b ↔ (a.group < b.group ∨ (a.group = b.group ∧ a.path ≤ b.path)) := by
  rw [giSortRel, Bool.eq_false_iff, Ne, giLess_true_iff]
  constructor
  · intro h
    have h1 : ¬ b.group < a.group := fun hc => h (Or.inl hc)
    have h2 : ¬ (b.group = a.group ∧ b.path < a.path) := fun hc => h (Or.inr hc)
    rcases lt_trichotomy a.group b.group with hlt | heq | hgt
    · exact Or.inl hlt
    · exact Or.inr ⟨heq, le_of_not_lt fun hp => h2 ⟨heq.symm, hp⟩⟩
    · exact absurd hgt h1
  · intro h hc
    rcases h with hlt | ⟨heq, hle⟩
    · rcases hc with h' | ⟨h1, _⟩
      · exact lt_irrefl _ (hlt.trans h')
      · exact lt_irrefl _ (h1 ▸ hlt)
    · rcases hc with h' | ⟨_, h2⟩
      · exact lt_irrefl _ (heq ▸ h')
      · exact not_lt_of_le hle h2

instance : IsTotal GroupedImport giSortRel := by
  constructor
  intro a b
  rw [giSortRel_iff, giSortRel_iff]
  rcases lt_trichotomy a.group b.group with h | h | h
  · exact Or.inl (Or.inl h)
  · rcases le_total a.path b.path with hp | hp
    · exact Or.inl (Or.inr ⟨h, hp⟩)
    · exact Or.inr (Or.inr ⟨h.symm, hp⟩)
  · exact Or.inr (Or.inl h)

instance : IsTrans GroupedImport giSortRel := by
  constructor
  intro a b c hab hbc
  rw [giSortRel_iff] at hab hbc ⊢
  rcases hab with h1 | ⟨e1, p1⟩ <;> rcases hbc with h2 | ⟨e2, p2⟩
  · exact Or.inl (h1.trans h2)
  · exact Or.inl (e2 ▸ h1)
  · exact Or.inl (e1 ▸ h2)
  · exact Or.inr ⟨e1.trans e2, p1.trans p2⟩

/-- C1 (amended): for a two-statement sequence whose entries share a group,
are separated by at least one blank line, and whose later path sorts before
the earlier one, the current validator reports StatementExtraLine, because it
checks same-group spacing before same-group path-ordering; the legacy
validator checks path-ordering first and reports StatementOrder. -/
theorem validate_sameGroup_blank_outOfOrder (prev g : GroupedImport)
    (hg : g.group = prev.group) (hb : 0 < emptyLinesBetween prev g)
    (hp : g.path < prev.path) :
    validate [prev, g] = some (validationError g errstrStatementExtraLine) ∧
    GroupImports.validate [prev, g] = some (validationError g errstrStatementOrder) := by
  constructor
  · simp [validate, validateFrom, validateStep, hg, hb, hp]
  · simp [GroupImports.validate, GroupImports.validateFrom, GroupImports.validateStep,
      hg, hb, hp]

/-- Witness for C1 (amended) at a concrete pair of imports. -/
theorem validate_sameGroup_blank_outOfOrder_witness :
    validate [⟨0, 0, "b", 0⟩, ⟨2, 2, "a", 0⟩]
        = some (validationError ⟨2, 2, "a", 0⟩ errstrStatementExtraLine) ∧
    GroupImports.validate [⟨0, 0, "b", 0⟩, ⟨2, 2, "a", 0⟩]
        = some (validationError ⟨2, 2, "a", 0⟩ errstrStatementOrder) :=
  validate_sameGroup_blank_outOfOrder ⟨0, 0, "b", 0⟩ ⟨2, 2, "a", 0⟩
    (by decide) (by decide)
    (by show ("a" : String) < "b"; rw [String.lt_iff_toList_lt]; decide)

/-- C1 counterexample: a same-group adjacent pair with one blank line between
them and paths out of order, on which the current validator does not report
StatementOrder (it reports StatementExtraLine instead). -/
theorem validate_sameGroup_blank_outOfOrder_cex :
    (⟨2, 2, "a", 0⟩ : GroupedImport).group = (⟨0, 0, "b", 0⟩ : GroupedImport).group ∧
    0 < emptyLinesBetween ⟨0, 0, "b", 0⟩ ⟨2, 2, "a", 0⟩ ∧
    (⟨2, 2, "a", 0⟩ : GroupedImport).path < (⟨0, 0, "b", 0⟩ : GroupedImport).path ∧
    validate [⟨0, 0, "b", 0⟩, ⟨2, 2, "a", 0⟩]
      ≠ some (validationError ⟨2, 2, "a", 0⟩ errstrStatementOrder) := by
  refine ⟨by decide, by decide,
    by show ("a" : String) < "b"; rw [String.lt_iff_toList_lt]; decide, by decide⟩

/-- Rendering of a wrong-verb int operand by the fmt package: a %s verb
applied to an int value n prints %!s(int=n). -/
def goFmtWrongVerbInt (n : Nat) : String := "%!s(int=" ++ toString n ++ ")"

/-- ValidationError.Error from group.go lines 50 to 52: the result of
fmt.Sprintf with format "%s: %s (line %s)" applied to Message, ImportPath
and the int field Line; the third verb is %s, not %d, so fmt renders Line
with its wrong-verb notation. Both package variants have this same body. -/
def errorString (e : ValidationError) : String :=
  e.message ++ ": " ++ e.importPath ++ " (line " ++ goFmtWrongVerbInt e.line ++ ")"

/-- Modelled from the spec: the rendering claimed by the spec,
"<message>: <importPath> (line <line>)" with the line number printed as its
decimal integer value. For comparison with errorString. -/
def errorStringSpec (e : ValidationError) : String :=
  e.message ++ ": " ++ e.importPath ++ " (line " ++ toString e.line ++ ")"

/-- C6: evaluation of ValidationError.Error at a concrete error. The line
number is rendered as a fmt wrong-verb escape, not as its decimal value, so
the rendering differs from the one the spec claims. -/
theorem errorString_wrong_verb_at_3 :
    errorString ⟨errstrStatementOrder, "os", 3⟩
        = "Import out of order within import group: os (line %!s(int=3))" ∧
    errorString ⟨errstrStatementOrder, "os", 3⟩
        ≠ errorStringSpec ⟨errstrStatementOrder, "os", 3⟩ := by
  exact ⟨by decide, by decide⟩

end Gogroup

namespace GroupImports

open Gogroup (GroupedImport ValidationError validationError emptyLinesBetween)

lemma validateStep_message (prev g : GroupedImport) (e : ValidationError)
    (h : validateStep prev g = some e) :
    e.message ≠ errstrGroupMissingLine := by
  unfold validateStep at h
  split_ifs at h with h1 h2 h3 h4 h5 h6 <;>
    first
      | exact Option.noConfusion h
      | (injection h with h'; subst h'; dsimp only [validationError]; decide)

lemma validateFrom_message (rest : List GroupedImport) :
    ∀ (prev : GroupedImport) (e : ValidationError),
      validateFrom prev rest = some e → e.message ≠ errstrGroupMissingLine := by
  induction rest with
  | nil => intro prev e h; exact Option.noConfusion h
  | cons g rest ih =>
    intro prev e h
    unfold validateFrom at h
    cases hs : validateStep prev g with
    | some e' =>
      rw [hs] at h
      injection h with h'
      subst h'
      exact validateStep_message prev g _ hs
    | none =>
      rw [hs] at h
      exact ih g e h

/-- C9: the legacy validator never returns the finding Missing empty line
between groups: every error it reports carries one of the other five
messages, because the branch guarded by emptyLines == 0 at the end of the
cross-group chain sits below the StatementGroup branch guarded by the same
condition. -/
theorem legacyValidate_never_reports_missing_line (gs : List GroupedImport)
    (e : ValidationError) (h : validate gs = some e) :
    e.message ≠ errstrGroupMissingLine := by
  unfold validate at h
  by_cases hlen : gs.length < 2
  · rw [if_pos hlen] at h
    exact Option.noConfusion h
  · rw [if_neg hlen] at h
    cases gs with
    | nil => exact Option.noConfusion h
    | cons g rest => exact validateFrom_message rest g e h

/-- Witness for C9: the legacy validator applied to a concrete out-of-order
pair returns a StatementOrder finding, whose message differs from the
missing-line message. -/
theorem legacyValidate_never_reports_missing_line_witness :
    (validationError ⟨2, 2, "a", 0⟩ Gogroup.errstrGroupOrder).message
      ≠ errstrGroupMissingLine :=
  legacyValidate_never_reports_missing_line [⟨0, 0, "b", 1⟩, ⟨2, 2, "a", 0⟩] _ (by decide)

end GroupImports

namespace Gogroup

lemma validateFrom_relayout (rest : List GroupedImport) :
    ∀ prev : GroupedImport, List.Pairwise giSortRel (prev :: rest) →
      validateFrom prev (relayout (prev.endLine + 1) (some prev.group) rest) = none := by
  induction rest with
  | nil => intro prev _; rfl
  | cons g rest ih =>
    intro prev hp
    have hrel : giSortRel prev g := (List.pairwise_cons.mp hp).1 g (List.mem_cons_self g rest)
    have hRest : List.Pairwise giSortRel (g :: rest) := (List.pairwise_cons.mp hp).2
    rw [giSortRel_iff] at hrel
    by_cases hgr : g.group = prev.group
    · have hst : relayoutStart (prev.endLine + 1) (some prev.group) g = prev.endLine + 1 := by
        simp [relayoutStart, hgr]
      have hpath : ¬ g.path < prev.path := by
        rcases hrel with hlt | ⟨_, hle⟩
        · exact absurd hlt (hgr ▸ lt_irrefl _)
        · exact not_lt_of_le hle
      rw [relayout, hst]
      unfold validateFrom
      have hstep :
          validateStep prev
            { g with startLine := prev.endLine + 1,
                     endLine := prev.endLine + 1 + (g.endLine - g.startLine) } = none := by
        unfold validateStep
        rw [if_pos hgr, if_neg (by simp [emptyLinesBetween]), if_neg hpath]
      rw [hstep]
      have hRest' :
          List.Pairwise giSortRel
            ({ g with startLine := prev.endLine + 1,
                      endLine := prev.endLine + 1 + (g.endLine - g.startLine) } :: rest) := by
        rw [List.pairwise_cons] at hRest ⊢
        exact ⟨fun b hb => hRest.1 b hb, hRest.2⟩
      exact ih _ hRest'
    · have hst : relayoutStart (prev.endLine + 1) (some prev.group) g = prev.endLine + 1 + 1 := by
        simp [relayoutStart, hgr]
      have hgl : ¬ g.group < prev.group := by
        rcases hrel with hlt | ⟨heq, _⟩
        · exact not_lt_of_gt hlt
        · exact absurd heq.symm hgr
      rw [relayout, hst]
      unfold validateFrom
      have hstep :
          validateStep prev
            { g with startLine := prev.endLine + 1 + 1,
                     endLine := prev.endLine + 1 + 1 + (g.endLine - g.startLine) } = none := by
        unfold validateStep
        rw [if_neg hgr, if_neg (by simp [emptyLinesBetween]; omega), if_neg hgl,
          if_neg (by simp [emptyLinesBetween]; omega)]
      rw [hstep]
      have hRest' :
          List.Pairwise giSortRel
            ({ g with startLine := prev.endLine + 1 + 1,
                      endLine := prev.endLine + 1 + 1 + (g.endLine - g.startLine) } :: rest) := by
        rw [List.pairwise_cons] at hRest ⊢
        exact ⟨fun b hb => hRest.1 b hb, hRest.2⟩
      exact ih _ hRest'

lemma validate_relayout_of_pairwise (l : List GroupedImport)
    (h : List.Pairwise giSortRel l) (pos : Nat) (pg : Option Int) :
    validate (relayout pos pg l) = none := by
  cases l with
  | nil => rfl
  | cons g rest =>
    unfold validate
    split_ifs with hlen
    · rfl
    · show validateFrom _ _ = none
      have hRest : List.Pairwise giSortRel
          ({ g with startLine := relayoutStart pos pg g,
                    endLine := relayoutStart pos pg g + (g.endLine - g.startLine) } :: rest) := by
        rw [List.pairwise_cons] at h ⊢
        exact ⟨fun b hb => h.1 b hb, h.2⟩
      exact validateFrom_relayout rest _ hRest

lemma writeFixed_fst_eq (lines : List String) (gs sorted : List GroupedImport)
    (out : List String) (hw : writeFixed lines gs = some (sorted, out)) :
    sorted = giSort gs := by
  unfold writeFixed at hw
  split_ifs at hw with hnil
  all_goals first
    | exact Option.noConfusion hw
    | (injection hw with hw'; injection hw' with ha hb; exact ha.symm)

/-- C2: repairing is idempotent. If validate rejects the extracted sequence
gs and writeFixed rewrites the file, then the sequence re-extracted from the
rewritten output (the sorted statements laid out consecutively with exactly
one blank line at each group change, modelled by relayout at any base line
pos) passes validate. -/
theorem writeFixed_output_validates_clean (lines : List String)
    (gs sorted : List GroupedImport) (out : List String)
    (hv : validate gs ≠ none)
    (hw : writeFixed lines gs = some (sorted, out)) (pos : Nat) :
    validate (relayout pos none sorted) = none := by
  rw [writeFixed_fst_eq lines gs sorted out hw]
  exact validate_relayout_of_pairwise _ (List.sorted_insertionSort giSortRel gs) pos none

/-- Witness for C2 at a concrete invalid file: two imports of different
groups with no separating blank line. -/
theorem writeFixed_output_validates_clean_witness :
    validate (relayout 5 none [⟨1, 1, "a", 0⟩, ⟨0, 0, "b", 1⟩]) = none :=
  writeFixed_output_validates_clean ["b1", "a1"] [⟨0, 0, "b", 1⟩, ⟨1, 1, "a", 0⟩]
    [⟨1, 1, "a", 0⟩, ⟨0, 0, "b", 1⟩] ["a1", "", "b1"] (by decide) (by decide) 5

end Gogroup

namespace Gogroup

/-- C3: repair touches no line outside the original import block. For a
non-empty extracted sequence whose block lies within the file, the output of
writeFixed starts with the input lines before the first import's startLine,
unchanged, and ends with the input lines after the last import's endLine,
unchanged. -/
theorem writeFixed_frame (g0 gl : GroupedImport) (rest : List GroupedImport)
    (lines : List String) (sorted : List GroupedImport) (out : List String)
    (hgl : (g0 :: rest).getLast? = some gl)
    (hmin : g0.startLine ≤ lines.length)
    (hmax : gl.endLine < lines.length)
    (hw : writeFixed lines (g0 :: rest) = some (sorted, out)) :
    out.take g0.startLine = lines.take g0.startLine ∧
    out.drop (out.length - (lines.length - (gl.endLine + 1))) =
      lines.drop (gl.endLine + 1) := by
  have hne : (g0 :: rest : List GroupedImport) ≠ [] := List.cons_ne_nil _ _
  have hglast : (g0 :: rest).getLast hne = gl :=
    Option.some.inj ((List.getLast?_eq_getLast (g0 :: rest) hne).symm.trans hgl)
  have hout : out =
      lines.take g0.startLine ++ (sortedImportLines (g0 :: rest) lines).snd ++
        lines.drop (gl.endLine + 1) := by
    unfold writeFixed at hw
    rw [dif_neg hne] at hw
    injection hw with hw'
    injection hw' with hs ho
    rw [← ho, hglast]
    rfl
  have hA : (lines.take g0.startLine).length = g0.startLine := by
    rw [List.length_take]
    omega
  constructor
  · rw [hout, List.append_assoc,
      List.take_append_of_le_length (le_of_eq hA.symm),
      List.take_of_length_le (le_of_eq hA)]
  · rw [hout]
    have hidx :
        (lines.take g0.startLine ++ (sortedImportLines (g0 :: rest) lines).snd ++
            lines.drop (gl.endLine + 1)).length -
          (lines.length - (gl.endLine + 1)) =
        (lines.take g0.startLine ++ (sortedImportLines (g0 :: rest) lines).snd).length := by
      simp only [List.length_append, List.length_take, List.length_drop]
      omega
    rw [hidx]
    exact List.drop_left _ _

/-- Witness for C3 at a concrete two-import file with surrounding lines. -/
theorem writeFixed_frame_witness :
    (["h", "a1", "", "b1", "t"] : List String).take 1 =
      (["h", "b1", "x", "a1", "t"] : List String).take 1 ∧
    (["h", "a1", "", "b1", "t"] : List String).drop (5 - (5 - 4)) =
      (["h", "b1", "x", "a1", "t"] : List String).drop 4 :=
  writeFixed_frame ⟨1, 1, "b", 1⟩ ⟨3, 3, "a", 0⟩ [⟨3, 3, "a", 0⟩]
    ["h", "b1", "x", "a1", "t"] [⟨3, 3, "a", 0⟩, ⟨1, 1, "b", 1⟩]
    ["h", "a1", "", "b1", "t"] (by decide) (by decide) (by decide) (by decide)

/-- C7 (amended): sortedImportLines sorts the sequence in place, not a copy.
After writeFixed returns, the sequence it was passed holds the same entries
permuted into nondecreasing (group, path) order; error reporting is
unaffected only because repair runs validate before calling writeFixed. -/
theorem writeFixed_sorts_sequence_in_place (lines : List String)
    (gs sorted : List GroupedImport) (out : List String)
    (hw : writeFixed lines gs = some (sorted, out)) :
    sorted.Perm gs ∧ List.Sorted giSortRel sorted := by
  rw [writeFixed_fst_eq lines gs sorted out hw]
  exact ⟨List.perm_insertionSort giSortRel gs, List.sorted_insertionSort giSortRel gs⟩

/-- Witness for C7 (amended) at a concrete out-of-order sequence. -/
theorem writeFixed_sorts_sequence_in_place_witness :
    ([⟨1, 1, "a", 0⟩, ⟨0, 0, "b", 1⟩] : List GroupedImport).Perm
      [⟨0, 0, "b", 1⟩, ⟨1, 1, "a", 0⟩] ∧
    List.Sorted giSortRel [⟨1, 1, "a", 0⟩, ⟨0, 0, "b", 1⟩] :=
  writeFixed_sorts_sequence_in_place ["b1", "a1"] [⟨0, 0, "b", 1⟩, ⟨1, 1, "a", 0⟩]
    [⟨1, 1, "a", 0⟩, ⟨0, 0, "b", 1⟩] ["a1", "", "b1"] (by decide)

/-- C7 counterexample: after writeFixed returns, the sequence passed to it is
no longer in its original source order (here the two entries have been
swapped by the in-place sort), refuting the copy claim. -/
theorem writeFixed_sorts_sequence_in_place_cex :
    (writeFixed ["b1", "a1"] [⟨0, 0, "b", 1⟩, ⟨1, 1, "a", 0⟩]).map Prod.fst ≠
      some [⟨0, 0, "b", 1⟩, ⟨1, 1, "a", 0⟩] := by
  decide

/-- C10: whenever repair reaches writeFixed the index accesses gs[0] and
gs[len(gs)-1] are in bounds: a sequence rejected by validate has at least two
entries, writeFixed does not hit its empty-sequence panic on it, and repair
itself never panics. -/
theorem repair_reaches_writeFixed_in_bounds (lines : List String)
    (gs : List GroupedImport) (hv : validate gs ≠ none) :
    2 ≤ gs.length ∧ writeFixed lines gs ≠ none ∧ repair lines gs ≠ none := by
  have hlen : 2 ≤ gs.length := by
    by_contra hc
    push_neg at hc
    exact hv (by unfold validate; rw [if_pos hc])
  have hne : gs ≠ [] := by
    intro h
    subst h
    simp at hlen
  have hwf : writeFixed lines gs ≠ none := by
    unfold writeFixed
    rw [dif_neg hne]
    simp
  refine ⟨hlen, hwf, ?_⟩
  unfold repair
  rw [if_neg hv]
  cases hw : writeFixed lines gs with
  | none => exact absurd hw hwf
  | some r => simp

/-- Witness for C10 at a concrete invalid sequence. -/
theorem repair_reaches_writeFixed_in_bounds_witness :
    2 ≤ ([⟨0, 0, "b", 1⟩, ⟨1, 1, "a", 0⟩] : List GroupedImport).length ∧
    writeFixed ["b1", "a1"] [⟨0, 0, "b", 1⟩, ⟨1, 1, "a", 0⟩] ≠ none ∧
    repair ["b1", "a1"] [⟨0, 0, "b", 1⟩, ⟨1, 1, "a", 0⟩] ≠ none :=
  repair_reaches_writeFixed_in_bounds ["b1", "a1"] [⟨0, 0, "b", 1⟩, ⟨1, 1, "a", 0⟩]
    (by decide)

end Gogroup

namespace GroupImportsCmd

/-- The grouper flag value of cmd/group-imports/main.go: a map from group
number to configured path start (the field named prefixes, modelled as the
association list of its entries in insertion order, with the keys unique
because each entry is inserted at the fresh key g.next), the group numbers of
standard and unidentified packages, and the next number to assign. -/
structure CmdGrouper where
  prefixes : List (Int × String)
  std : Int
  other : Int
  next : Int
deriving Repr, DecidableEq

/-- newGrouper from main.go: no configured path starts, std group 0, other
group 1, next fresh number 2. -/
def newGrouper : CmdGrouper := ⟨[], 0, 1, 2⟩

/-- strings.HasPrefix(s, p) over the character-sequence view of Go strings:
p is an initial run of s. -/
def goHasPrefix (p s : String) : Bool := p.data.isPrefixOf s.data

/-- strings.Contains(s, ".") for the one-character needle, over the
character-sequence view: some character of s is c. -/
def goContainsChar (s : String) (c : Char) : Bool := s.data.contains c

/-- strings.Split(s, ",") over the character-sequence view: the comma-
separated pieces of s. -/
def goSplitComma (s : String) : List String :=
  (s.data.splitOn ',').map fun l => ⟨l⟩

/-- The remainder of a part after the seven characters of prefix=, the
capture group of the rePrefix pattern. -/
def specRemainder (p : String) : String := ⟨p.data.drop 7⟩

/-- grouper.Group from main.go lines 34 to 47. The Go code ranges over the
prefixes map, whose iteration order is unspecified, so the order is an
explicit parameter: iter is the sequence of map entries in the order the
range loop visits them (any permutation of g.prefixes). The first entry
whose string starts the package path wins; with no match, a dot in the path
selects the other group, else the std group. -/
def groupWithOrder (g : CmdGrouper) (iter : List (Int × String)) (pkg : String) : Int :=
  match iter.find? (fun e => goHasPrefix e.snd pkg) with
  | some e => e.fst
  | none => if goContainsChar pkg '.' then g.other else g.std

/-- The test rePrefix.FindStringSubmatch(p) != nil for the anchored pattern
matching prefix= followed by any characters other than newline: p starts
with the seven characters prefix= and its remainder contains no newline. -/
def isPrefixSpec (p : String) : Bool :=
  goHasPrefix "prefix=" p && !(goContainsChar (specRemainder p) '\n')

/-- The loop body of grouper.Set from main.go lines 71 to 86 over the parts
of the comma-split argument: std and other reassign the respective group to
the next fresh number, a prefix= part appends a map entry at the fresh
number, anything else is the configuration error; every recognized part
increments next. -/
def setParts (g : CmdGrouper) : List String → Except String CmdGrouper
  | [] => .ok g
  | p :: rest =>
    if p = "std" then
      setParts { g with std := g.next, next := g.next + 1 } rest
    else if p = "other" then
      setParts { g with other := g.next, next := g.next + 1 } rest
    else if isPrefixSpec p then
      setParts
        { g with prefixes := g.prefixes ++ [(g.next, specRemainder p)], next := g.next + 1 }
        rest
    else
      .error ("Unknown order specification " ++ p)

/-- grouper.Set from main.go: split the argument on commas and fold the
parts into the configuration, stopping at the first unrecognized part. -/
def grouperSet (g : CmdGrouper) (s : String) : Except String CmdGrouper :=
  setParts g (goSplitComma s)

end GroupImportsCmd

namespace GroupImportsCmd

/-- C5 counterexample: a configuration with two path specifications that both
match the package path, and a legal iteration order of the prefixes map under
which Group returns the id of the second-listed specification instead of the
first-listed one. -/
theorem groupWithOrder_not_first_listed_cex :
    grouperSet newGrouper "prefix=a,prefix=ab" =
      .ok ⟨[(2, "a"), (3, "ab")], 0, 1, 4⟩ ∧
    List.Perm [((3 : Int), "ab"), ((2 : Int), "a")] [(2, "a"), (3, "ab")] ∧
    goHasPrefix "a" "abc" = true ∧ goHasPrefix "ab" "abc" = true ∧
    groupWithOrder ⟨[(2, "a"), (3, "ab")], 0, 1, 4⟩ [(3, "ab"), (2, "a")] "abc" = 3 ∧
    ((3 : Int) ≠ 2) :=
  ⟨rfl, List.Perm.swap _ _ _, by decide, by decide, rfl, by decide⟩

/-- C5 (amended): for every iteration order of the prefixes map, whenever
some configured specification matches the import path, Group returns the
group id of a matching specification, but which matching specification wins
is determined by the unspecified map iteration order, not by listing order. -/
theorem groupWithOrder_returns_some_matching (g : CmdGrouper)
    (iter : List (Int × String)) (pkg : String)
    (hperm : iter.Perm g.prefixes)
    (hmatch : ∃ e ∈ g.prefixes, goHasPrefix e.snd pkg = true) :
    ∃ e ∈ g.prefixes, goHasPrefix e.snd pkg = true ∧
      groupWithOrder g iter pkg = e.fst := by
  obtain ⟨e0, he0, hp0⟩ := hmatch
  have hsome : (iter.find? (fun e => goHasPrefix e.snd pkg)).isSome := by
    rw [List.find?_isSome]
    exact ⟨e0, hperm.mem_iff.mpr he0, hp0⟩
  obtain ⟨e, he⟩ := Option.isSome_iff_exists.mp hsome
  have hpe : goHasPrefix e.snd pkg = true := by
    have hfe := List.find?_some he
    simpa using hfe
  refine ⟨e, hperm.mem_iff.mp (List.mem_of_find?_eq_some he), hpe, ?_⟩
  unfold groupWithOrder
  rw [he]

/-- Witness for C5 (amended) at a concrete configuration and order. -/
theorem groupWithOrder_returns_some_matching_witness :
    ∃ e ∈ ([((2 : Int), "a"), ((3 : Int), "ab")] : List (Int × String)),
      goHasPrefix e.snd "abc" = true ∧
      groupWithOrder ⟨[(2, "a"), (3, "ab")], 0, 1, 4⟩ [(2, "a"), (3, "ab")] "abc" = e.fst :=
  groupWithOrder_returns_some_matching ⟨[(2, "a"), (3, "ab")], 0, 1, 4⟩
    [(2, "a"), (3, "ab")] "abc" (List.Perm.refl _) ⟨(2, "a"), by decide, by decide⟩

lemma setParts_error_iff_unrecognized (parts : List String) :
    ∀ g : CmdGrouper, (∃ err, setParts g parts = .error err) ↔
      ∃ p ∈ parts, p ≠ "std" ∧ p ≠ "other" ∧ isPrefixSpec p = false := by
  induction parts with
  | nil =>
    intro g
    simp [setParts]
  | cons p rest ih =>
    intro g
    unfold setParts
    split_ifs with h1 h2 h3
    · rw [ih]
      constructor
      · rintro ⟨q, hq, hne⟩
        exact ⟨q, List.mem_cons_of_mem _ hq, hne⟩
      · rintro ⟨q, hq, hns, hno, hnp⟩
        rcases List.mem_cons.mp hq with rfl | hq'
        · exact absurd h1 hns
        · exact ⟨q, hq', hns, hno, hnp⟩
    · rw [ih]
      constructor
      · rintro ⟨q, hq, hne⟩
        exact ⟨q, List.mem_cons_of_mem _ hq, hne⟩
      · rintro ⟨q, hq, hns, hno, hnp⟩
        rcases List.mem_cons.mp hq with rfl | hq'
        · exact absurd h2 hno
        · exact ⟨q, hq', hns, hno, hnp⟩
    · rw [ih]
      constructor
      · rintro ⟨q, hq, hne⟩
        exact ⟨q, List.mem_cons_of_mem _ hq, hne⟩
      · rintro ⟨q, hq, hns, hno, hnp⟩
        rcases List.mem_cons.mp hq with rfl | hq'
        · rw [h3] at hnp
          exact Bool.noConfusion hnp
        · exact ⟨q, hq', hns, hno, hnp⟩
    · constructor
      · intro _
        exact ⟨p, List.mem_cons_self _ _, h1, h2, by simpa using h3⟩
      · intro _
        exact ⟨"Unknown order specification " ++ p, rfl⟩

/-- C8 (amended): grouper.Set reports a configuration error exactly when some
comma-separated part of the argument is an unrecognized specification token;
duplicate recognized tokens are accepted, a repeated std or other simply
reassigning that designation to the later position. -/
theorem grouperSet_error_iff_unrecognized (s : String) (g : CmdGrouper) :
    (∃ err, grouperSet g s = .error err) ↔
      ∃ p ∈ goSplitComma s, p ≠ "std" ∧ p ≠ "other" ∧ isPrefixSpec p = false := by
  unfold grouperSet
  exact setParts_error_iff_unrecognized (goSplitComma s) g

/-- C8 counterexample: the argument std,std holds the token std twice, yet
Set accepts it without error: the duplicate reassigns the std group to the
later position (group 3) instead of being rejected. -/
theorem grouperSet_accepts_duplicate_std_cex :
    grouperSet newGrouper "std,std" = .ok ⟨[], 3, 1, 4⟩ := rfl

end GroupImportsCmd

namespace Gogroup

/-- C4: evaluation of reformat at an input where the external formatting
collaborator changes the text and the formatted result is already
group-valid (here the extracted sequence is empty, so repair is a no-op):
reformat returns the Go nil result, reporting no change, even though the
formatting pass changed the text, because the final return hands back the
nil repair result instead of the formatted text. -/
theorem reformat_drops_format_only_change :
    reformat (fun _ => ["b"]) (fun _ => []) ["a"] = some none ∧
    (["b"] : List String) ≠ ["a"] :=
  ⟨rfl, by decide⟩

end Gogroup
